import Mathlib

/-!
Verification of the `CarDealerApp` inventory/sales core: the `Car` entity
(`car.py`) and the two `DealerManager` variants (`dealer_manager.py`,
`dealer_app.py`).

Python strings are modelled as lists of character code points (`PyStr`),
Python floats as rationals, raised exceptions as `Except.error`, and the
mutable manager object as explicit state passing.  Wall-clock inputs
(`date.today().year`, `datetime.now()`) are passed in as parameters
(`today`, `now`).
-/

deriving instance DecidableEq for Except

namespace CarDealerApp

/-- A Python string, as its list of character code points. -/
abbrev PyStr := List Nat

/-- Build a `PyStr` from a Lean string literal (used for concrete inputs). -/
def pys (s : String) : PyStr := s.toList.map Char.toNat

/-- Render a `PyStr` back to a Lean string (used for interpolated error
messages such as f-strings in the source). -/
def toStr (s : PyStr) : String := String.mk (s.map Char.ofNat)

/-- ASCII whitespace, as stripped by Python's `str.strip()`. -/
def isSpaceC (c : Nat) : Bool :=
  decide (c = 9 ∨ c = 10 ∨ c = 11 ∨ c = 12 ∨ c = 13 ∨ c = 32)

/-- ASCII lowercase letter test (`str.islower` per character). -/
def isLowerC (c : Nat) : Bool := decide (97 ≤ c ∧ c ≤ 122)

/-- ASCII uppercase letter test. -/
def isUpperC (c : Nat) : Bool := decide (65 ≤ c ∧ c ≤ 90)

/-- ASCII cased-letter test, the word-boundary notion used by `str.title()`. -/
def isAlphaC (c : Nat) : Bool := isUpperC c || isLowerC c

/-- Uppercase one character code (`str.upper` per character, ASCII). -/
def toUpperC (c : Nat) : Nat := if isLowerC c then c - 32 else c

/-- Lowercase one character code (`str.lower` per character, ASCII). -/
def toLowerC (c : Nat) : Nat := if isUpperC c then c + 32 else c

/-- Python `str.lstrip()`. -/
def lstrip (s : PyStr) : PyStr := s.dropWhile isSpaceC

/-- Python `str.rstrip()`. -/
def rstrip (s : PyStr) : PyStr := (s.reverse.dropWhile isSpaceC).reverse

/-- Python `str.strip()`. -/
def strip (s : PyStr) : PyStr := rstrip (lstrip s)

/-- Python `str.upper()` (ASCII). -/
def upper (s : PyStr) : PyStr := s.map toUpperC

/-- Python `str.lower()` (ASCII). -/
def lower (s : PyStr) : PyStr := s.map toLowerC

/-- Worker for `title`: the boolean records whether the previous character
was a cased letter, exactly Python's `str.title()` word-boundary rule. -/
def titleAux : Bool → PyStr → PyStr
  | _, [] => []
  | prevAlpha, c :: rest =>
    (if isAlphaC c then (if prevAlpha then toLowerC c else toUpperC c) else c)
      :: titleAux (isAlphaC c) rest

/-- Python `str.title()` (ASCII). -/
def title (s : PyStr) : PyStr := titleAux false s

/-- Is `n` a prefix of the second argument (code-point lists)? -/
def isPre : PyStr → PyStr → Bool
  | [], _ => true
  | _ :: _, [] => false
  | a :: as, b :: bs => a == b && isPre as bs

/-- Python's `needle in hay` on strings: contiguous substring test. -/
def isSub (n : PyStr) : PyStr → Bool
  | [] => isPre n []
  | c :: rest => isPre n (c :: rest) || isSub n rest

/-- The VIN normalization applied throughout the code: `vin.strip().upper()`. -/
def normVin (s : PyStr) : PyStr := upper (strip s)

/-- A JSON-able Python value, as appearing in the persisted dictionaries. -/
inductive PyVal where
  | str (s : PyStr)
  | int (n : Int)
  | float (q : Rat)
  | none
deriving DecidableEq

/-- A Python dict with string keys, as an ordered association list. -/
abbrev PyDict := List (PyStr × PyVal)

/-- Python `d[key]` lookup (as an `Option`; the claims only exercise
present keys). -/
def lookupD : PyDict → PyStr → Option PyVal
  | [], _ => Option.none
  | (k, w) :: rest, key => if k = key then some w else lookupD rest key

/-- Python `d[key] = v`: replace in place if the key exists, else append. -/
def setKey : PyDict → PyStr → PyVal → PyDict
  | [], key, v => [(key, v)]
  | (k, w) :: rest, key, v =>
    if k = key then (k, v) :: rest else (k, w) :: setKey rest key v

/-- The fixed placeholder image path substituted for a blank `image_url`. -/
def placeholder : PyStr := pys ("/static/placeholder.png")

/-- `car.py` `Car`: one validated vehicle record.  `sale_date` is `none`
for inventory vehicles (Python `None`); a timestamp string otherwise. -/
structure Car where
  make : PyStr
  model : PyStr
  year : Int
  price : Rat
  vin : PyStr
  image_url : PyStr
  sale_date : Option PyStr
deriving DecidableEq

/-- `Car.__init__` together with `Car._validate_input` from `car.py`.
`today` stands for `date.today().year`.  In this typed model the dynamic
casts `int(year)` and `float(price)` always succeed, so only the range and
emptiness checks can fail.  Note that in the source a non-positive price
raises inside the `try` block and is re-raised by its own `except` clause
as "Price must be a valid number." -/
def carInit (today : Int) (make model : PyStr) (year : Int) (price : Rat)
    (vin : PyStr) (image_url : PyStr) (sale_date : Option PyStr) :
    Except String Car :=
  let make1 := strip make
  let model1 := strip model
  let vin1 := strip vin
  if make1 = [] ∨ model1 = [] then
    Except.error ("Make and model cannot be empty.")
  else if vin1 = [] ∨ vin1.length ≠ 17 then
    Except.error ("VIN must be exactly 17 characters.")
  else if 1900 ≤ year ∧ year ≤ today + 2 then
    if price ≤ 0 then
      Except.error ("Price must be a valid number.")
    else
      let ciu := strip image_url
      Except.ok
        { make := title make1
          model := title model1
          year := year
          price := price
          vin := upper vin1
          image_url := if ciu = [] then placeholder else ciu
          sale_date := sale_date }
  else
    Except.error ("Year must be between 1900 and " ++ toString (today + 2) ++ ".")

/-- `Car.to_dict` from `car.py`: always emits all seven keys; `sale_date`
is serialized to its ISO string when present and to `null` otherwise
(timestamps are opaque strings in this model, so `isoformat` is the
identity on them). -/
def Car.to_dict (c : Car) : PyDict :=
  [ (pys ("make"), PyVal.str c.make),
    (pys ("model"), PyVal.str c.model),
    (pys ("year"), PyVal.int c.year),
    (pys ("price"), PyVal.float c.price),
    (pys ("vin"), PyVal.str c.vin),
    (pys ("image_url"), PyVal.str c.image_url),
    (pys ("sale_date"),
      match c.sale_date with
      | some d => PyVal.str d
      | Option.none => PyVal.none) ]

/-- The in-memory manager state shared by both `DealerManager` variants:
the inventory list and the sales log.  The two file-path fields only feed
the I/O layer and are omitted. -/
structure DealerManager where
  inventory : List Car
  sales_history : List PyDict
deriving DecidableEq

/-- `DealerManager.find_car_by_vin` (identical in both variants). -/
def find_car_by_vin (m : DealerManager) (vin : PyStr) : Option Car :=
  let v := normVin vin
  m.inventory.find? (fun c => decide (c.vin = v))

/-- `DealerManager.add_car` (identical in both variants). -/
def add_car (m : DealerManager) (car : Car) : DealerManager × Bool :=
  if (find_car_by_vin m car.vin).isSome then (m, false)
  else ({ m with inventory := m.inventory ++ [car] }, true)

/-- Mutate the first list element satisfying `p`, as Python's mutation of
the single object returned by `find_car_by_vin`. -/
def replaceFirst (p : Car → Bool) (f : Car → Car) : List Car → List Car
  | [] => []
  | c :: rest => if p c then f c :: rest else c :: replaceFirst p f rest

/-- `DealerManager.remove_car` (identical in both variants): on a hit,
append the sale record (the car's dict with `sale_date` set to "now") to
the sales log and delete the vehicle from inventory, in one step. -/
def remove_car (now : PyStr) (m : DealerManager) (vin : PyStr) :
    DealerManager × Bool :=
  match find_car_by_vin m vin with
  | Option.none => (m, false)
  | some car_to_sell =>
    let v := normVin vin
    let sale_record :=
      setKey (Car.to_dict car_to_sell) (pys ("sale_date")) (PyVal.str now)
    ({ inventory := m.inventory.filter (fun c => decide (c.vin ≠ v)),
       sales_history := m.sales_history ++ [sale_record] }, true)

namespace DM

/-- `dealer_manager.py` `DealerManager.edit_car`: raises (`Except.error`)
on a missing VIN, on an empty change set, and on validation failure; it
re-validates through the `Car` constructor before applying anything, and
only then mutates the found car. -/
def edit_car (today : Int) (m : DealerManager) (vin : PyStr)
    (new_price : Option Rat) (new_year : Option Int) :
    Except String (DealerManager × Bool) :=
  match find_car_by_vin m vin with
  | Option.none =>
    Except.error ("Car with VIN " ++ toStr vin ++ " not found.")
  | some car =>
    if new_price = Option.none ∧ new_year = Option.none then
      Except.error ("No changes specified (both price and year skipped).")
    else
      let temp_price := new_price.getD car.price
      let temp_year := new_year.getD car.year
      match carInit today car.make car.model temp_year temp_price car.vin
          car.image_url Option.none with
      | Except.error e => Except.error ("Validation error during edit: " ++ e)
      | Except.ok _ =>
        let v := normVin vin
        Except.ok
          ({ m with
              inventory :=
                replaceFirst (fun c => decide (c.vin = v))
                  (fun c =>
                    let c1 := match new_price with
                      | some p => { c with price := p }
                      | Option.none => c
                    match new_year with
                    | some y => { c1 with year := y }
                    | Option.none => c1)
                  m.inventory }, true)

/-- `dealer_manager.py` `DealerManager.search_cars`: no special case for a
blank query — the filter is always applied. -/
def search_cars (m : DealerManager) (query : PyStr) : List Car :=
  let q := strip (lower query)
  m.inventory.filter
    (fun car => isSub q (lower car.make) || isSub q (lower car.model))

end DM

namespace DA

/-- Tail of `dealer_app.py` `edit_car`: the `new_image_url` step, which
cannot fail (blank input becomes the placeholder). -/
def applyImage (v : PyStr) (m : DealerManager) (new_image_url : Option PyStr) :
    DealerManager × Bool :=
  match new_image_url with
  | Option.none => (m, true)
  | some u =>
    let cu := strip u
    ({ m with
        inventory :=
          replaceFirst (fun c => decide (c.vin = v))
            (fun c =>
              { c with image_url := if cu = [] then placeholder else cu })
            m.inventory }, true)

/-- Middle of `dealer_app.py` `edit_car`: the `new_year` step.  On an
out-of-range year the exception is caught and `False` returned — but the
state passed in (which may already carry an applied price change) is kept. -/
def editYear (today : Int) (v : PyStr) (m : DealerManager)
    (new_year : Option Int) (new_image_url : Option PyStr) :
    DealerManager × Bool :=
  match new_year with
  | Option.none => applyImage v m new_image_url
  | some y =>
    if 1900 ≤ y ∧ y ≤ today + 2 then
      applyImage v
        { m with
            inventory :=
              replaceFirst (fun c => decide (c.vin = v))
                (fun c => { c with year := y }) m.inventory }
        new_image_url
    else (m, false)

/-- `dealer_app.py` `DealerManager.edit_car`: applies the provided fields
one at a time inside a single `try` block; a later failure returns `False`
but leaves earlier assignments in place. -/
def edit_car (today : Int) (m : DealerManager) (vin : PyStr)
    (new_price : Option Rat) (new_year : Option Int)
    (new_image_url : Option PyStr) : DealerManager × Bool :=
  let v := normVin vin
  match find_car_by_vin m vin with
  | Option.none => (m, false)
  | some _ =>
    match new_price with
    | Option.none => editYear today v m new_year new_image_url
    | some p =>
      if p ≤ 0 then (m, false)
      else
        editYear today v
          { m with
              inventory :=
                replaceFirst (fun c => decide (c.vin = v))
                  (fun c => { c with price := p }) m.inventory }
          new_year new_image_url

/-- `dealer_app.py` `DealerManager.search_cars`: a blank query returns the
full inventory; otherwise filter on a case-insensitive substring match
against make and model. -/
def search_cars (m : DealerManager) (query : PyStr) : List Car :=
  let nq := strip (lower query)
  if nq = [] then m.inventory
  else
    m.inventory.filter
      (fun car => isSub nq (lower car.make) || isSub nq (lower car.model))

end DA

/-- The result shape of `dealer_app.py` `get_sales_report`. -/
structure SalesReport where
  total_sold : Nat
  total_revenue : Rat
  history : List PyDict
deriving DecidableEq

/-- `record['price']` as a number, as summed by `get_sales_report`.  The
fall-through `0` case is never reached on records produced by `to_dict`. -/
def priceOf (r : PyDict) : Rat :=
  match lookupD r (pys ("price")) with
  | some (PyVal.float q) => q
  | some (PyVal.int n) => (n : Rat)
  | _ => 0

/-- `dealer_app.py` `DealerManager.get_sales_report`: recomputed from the
current sales log on every call. -/
def get_sales_report (m : DealerManager) : SalesReport :=
  { total_sold := m.sales_history.length
    total_revenue := (m.sales_history.map priceOf).sum
    history := m.sales_history.reverse }

/-- One stored inventory record, after `_load_data`'s field extraction. -/
structure RawRec where
  make : PyStr
  model : PyStr
  year : Int
  price : Rat
  vin : PyStr
  image_url : PyStr
deriving DecidableEq

/-- `dealer_app.py` `DealerManager._load_data` on an already-parsed JSON
array: construct a `Car` per record, skipping records whose construction
fails, with no duplicate-VIN check. -/
def load_data (today : Int) : List RawRec → List Car
  | [] => []
  | r :: rest =>
    match carInit today r.make r.model r.year r.price r.vin r.image_url
        Option.none with
    | Except.ok c => c :: load_data today rest
    | Except.error _ => load_data today rest

/-- `save_data` minus the file I/O: the list of serialized records it
writes for the current inventory. -/
def save_records (m : DealerManager) : List PyDict :=
  m.inventory.map Car.to_dict

/-- The search predicate of both `search_cars` variants: the normalized
query (`query.lower().strip()`) occurs as a substring of the lowercased
make or of the lowercased model — i.e. a case-insensitive substring match
against make and model. -/
def matchesQuery (q : PyStr) (c : Car) : Bool :=
  isSub (strip (lower q)) (lower c.make) ||
    isSub (strip (lower q)) (lower c.model)

/-- The spec's inventory invariant: no two inventory entries share a
normalized VIN. -/
def noDupNormVins (m : DealerManager) : Prop :=
  ((m.inventory.map (fun c => c.vin)).map normVin).Nodup

/-- Well-formedness actually maintained by the code: stored VINs are
already normalized (every `Car` is built by the constructor, which
normalizes), and they are pairwise distinct. -/
def WF (m : DealerManager) : Prop :=
  (∀ v ∈ m.inventory.map (fun c => c.vin), normVin v = v) ∧
    (m.inventory.map (fun c => c.vin)).Nodup

/-- Concrete sample vehicle (the spec's scenario vehicle), in normalized
form as the constructor stores it. -/
def carA : Car :=
  { make := pys ("Honda")
    model := pys ("Civic")
    year := 2020
    price := 25000
    vin := pys ("1HGCM82633A004352")
    image_url := placeholder
    sale_date := Option.none }

/-- Concrete one-car manager state used by witnesses. -/
def mgrA : DealerManager := { inventory := [carA], sales_history := [] }

/-- A concrete valid stored record (used to exhibit a duplicate-VIN load). -/
def rawA : RawRec :=
  { make := pys ("Honda")
    model := pys ("Civic")
    year := 2020
    price := 25000
    vin := pys ("1HGCM82633A004352")
    image_url := pys ("") }

/-! ### Character-level facts about the ASCII case maps -/

lemma isSpaceC_toUpperC (c : Nat) : isSpaceC (toUpperC c) = isSpaceC c := by
  unfold toUpperC
  split
  · rename_i h
    unfold isLowerC at h
    rw [decide_eq_true_eq] at h
    unfold isSpaceC
    rw [decide_eq_decide]
    omega
  · rfl

lemma isSpaceC_toLowerC (c : Nat) : isSpaceC (toLowerC c) = isSpaceC c := by
  unfold toLowerC
  split
  · rename_i h
    unfold isUpperC at h
    rw [decide_eq_true_eq] at h
    unfold isSpaceC
    rw [decide_eq_decide]
    omega
  · rfl

lemma isAlphaC_toUpperC (c : Nat) : isAlphaC (toUpperC c) = isAlphaC c := by
  unfold toUpperC
  split
  · rename_i h
    unfold isLowerC at h
    rw [decide_eq_true_eq] at h
    unfold isAlphaC isUpperC isLowerC
    rw [Bool.or_comm]
    congr 1
    · rw [decide_eq_decide]; omega
    · rw [decide_eq_decide]; omega
  · rfl

lemma isAlphaC_toLowerC (c : Nat) : isAlphaC (toLowerC c) = isAlphaC c := by
  unfold toLowerC
  split
  · rename_i h
    unfold isUpperC at h
    rw [decide_eq_true_eq] at h
    unfold isAlphaC isUpperC isLowerC
    rw [Bool.or_comm]
    congr 1
    · rw [decide_eq_decide]; omega
    · rw [decide_eq_decide]; omega
  · rfl

lemma toUpperC_toUpperC (c : Nat) : toUpperC (toUpperC c) = toUpperC c := by
  by_cases h : 97 ≤ c ∧ c ≤ 122
  · have h1 : isLowerC c = true := by unfold isLowerC; rw [decide_eq_true_eq]; exact h
    have h2 : isLowerC (c - 32) = false := by
      unfold isLowerC; rw [decide_eq_false_iff_not]; omega
    simp [toUpperC, h1, h2]
  · have h1 : isLowerC c = false := by unfold isLowerC; rw [decide_eq_false_iff_not]; exact h
    simp [toUpperC, h1]

lemma toLowerC_toLowerC (c : Nat) : toLowerC (toLowerC c) = toLowerC c := by
  by_cases h : 65 ≤ c ∧ c ≤ 90
  · have h1 : isUpperC c = true := by unfold isUpperC; rw [decide_eq_true_eq]; exact h
    have h2 : isUpperC (c + 32) = false := by
      unfold isUpperC; rw [decide_eq_false_iff_not]; omega
    simp [toLowerC, h1, h2]
  · have h1 : isUpperC c = false := by unfold isUpperC; rw [decide_eq_false_iff_not]; exact h
    simp [toLowerC, h1]

/-! ### String-level facts: `title`, `upper`, `strip` -/

lemma titleAux_isSpace (b : Bool) (s : PyStr) :
    (titleAux b s).map isSpaceC = s.map isSpaceC := by
  induction s generalizing b with
  | nil => rfl
  | cons c t ih =>
    simp only [titleAux, List.map_cons, ih]
    congr 1
    split
    · split
      · exact isSpaceC_toLowerC c
      · exact isSpaceC_toUpperC c
    · rfl

lemma titleAux_length (b : Bool) (s : PyStr) : (titleAux b s).length = s.length := by
  have h := congrArg List.length (titleAux_isSpace b s)
  simpa using h

lemma titleAux_idem (b : Bool) (s : PyStr) :
    titleAux b (titleAux b s) = titleAux b s := by
  induction s generalizing b with
  | nil => rfl
  | cons c t ih =>
    by_cases hc : isAlphaC c = true
    · cases b with
      | false =>
        have hd : isAlphaC (toUpperC c) = isAlphaC c := isAlphaC_toUpperC c
        simp only [titleAux, hc, if_true, if_false, Bool.false_eq_true]
        simp only [hd, hc, if_true, toUpperC_toUpperC, ih]
      | true =>
        have hd : isAlphaC (toLowerC c) = isAlphaC c := isAlphaC_toLowerC c
        simp only [titleAux, hc, if_true]
        simp only [hd, hc, if_true, toLowerC_toLowerC, ih]
    · have hc' : isAlphaC c = false := by revert hc; cases isAlphaC c <;> simp
      simp only [titleAux, hc', Bool.false_eq_true, if_false, ih]

lemma upper_upper (s : PyStr) : upper (upper s) = upper s := by
  unfold upper
  rw [List.map_map]
  exact List.map_congr_left (fun a _ => toUpperC_toUpperC a)

lemma title_length (s : PyStr) : (title s).length = s.length := titleAux_length false s

lemma title_title (s : PyStr) : title (title s) = title s := titleAux_idem false s

lemma dropWhile_cons_self {p : Nat → Bool} {a : Nat} {l : List Nat}
    (h : List.dropWhile p (a :: l) = a :: l) : p a = false := by
  by_contra hne
  have hpa : p a = true := by revert hne; cases p a <;> simp
  rw [List.dropWhile_cons_of_pos hpa] at h
  have hs : List.dropWhile p l <:+ l := List.dropWhile_suffix _
  have hle := hs.sublist.length_le
  have hlen := congrArg List.length h
  simp at hlen
  omega

lemma lstrip_idem (s : PyStr) : lstrip (lstrip s) = lstrip s :=
  List.dropWhile_idempotent _ _

lemma rstrip_idem (s : PyStr) : rstrip (rstrip s) = rstrip s :=
  List.rdropWhile_idempotent _ _

lemma lstrip_of_rstrip {x : PyStr} (h : lstrip x = x) :
    lstrip (rstrip x) = rstrip x := by
  obtain ⟨t, ht⟩ := List.rdropWhile_prefix isSpaceC x
  cases hr : rstrip x with
  | nil => rfl
  | cons a r =>
    have hx : x = a :: (r ++ t) := by
      have : rstrip x ++ t = x := ht
      rw [hr] at this
      simpa using this.symm
    have ha : isSpaceC a = false := by
      rw [hx] at h
      exact dropWhile_cons_self h
    unfold lstrip
    simp [List.dropWhile_cons, ha]

lemma strip_idem (s : PyStr) : strip (strip s) = strip s := by
  unfold strip
  rw [lstrip_of_rstrip (lstrip_idem s), rstrip_idem]

lemma strip_parts {t : PyStr} (h : strip t = t) :
    lstrip t = t ∧ rstrip t = t := by
  have h1 : lstrip t <:+ t := List.dropWhile_suffix _
  have h2 : rstrip (lstrip t) <+: lstrip t := List.rdropWhile_prefix _ _
  have hl1 := h1.sublist.length_le
  have hl2 := h2.sublist.length_le
  have hlen := congrArg List.length h
  unfold strip at hlen
  have hll : (lstrip t).length = t.length := by omega
  have hls : lstrip t = t := h1.sublist.eq_of_length hll
  refine ⟨hls, ?_⟩
  have := h
  unfold strip at this
  rwa [hls] at this

lemma lstrip_congr {s t : PyStr} (hm : s.map isSpaceC = t.map isSpaceC)
    (ht : lstrip t = t) : lstrip s = s := by
  cases s with
  | nil => rfl
  | cons a s' =>
    cases t with
    | nil => simp at hm
    | cons b t' =>
      simp only [List.map_cons, List.cons.injEq] at hm
      have hb : isSpaceC b = false := dropWhile_cons_self ht
      have ha : isSpaceC a = false := by rw [hm.1, hb]
      unfold lstrip
      simp [List.dropWhile_cons, ha]

lemma rstrip_congr {s t : PyStr} (hm : s.map isSpaceC = t.map isSpaceC)
    (ht : rstrip t = t) : rstrip s = s := by
  have hrev : s.reverse.map isSpaceC = t.reverse.map isSpaceC := by
    rw [List.map_reverse, List.map_reverse, hm]
  have ht' : lstrip t.reverse = t.reverse := by
    have := congrArg List.reverse ht
    unfold rstrip at this
    rw [List.reverse_reverse] at this
    exact this
  have hres := lstrip_congr hrev ht'
  unfold rstrip
  unfold lstrip at hres
  rw [hres, List.reverse_reverse]

lemma strip_eq_self_congr {s t : PyStr} (hm : s.map isSpaceC = t.map isSpaceC)
    (ht : strip t = t) : strip s = s := by
  obtain ⟨hl, hr⟩ := strip_parts ht
  have hls := lstrip_congr hm hl
  have hrs := rstrip_congr hm hr
  unfold strip
  rw [hls, hrs]

lemma strip_map {f : Nat → Nat} (hf : ∀ c, isSpaceC (f c) = isSpaceC c)
    (s : PyStr) : strip (s.map f) = (strip s).map f := by
  have hfun : (isSpaceC ∘ f) = isSpaceC := funext hf
  have hl : ∀ u : PyStr, lstrip (u.map f) = (lstrip u).map f := by
    intro u
    unfold lstrip
    rw [List.dropWhile_map, hfun]
  have hr : ∀ u : PyStr, rstrip (u.map f) = (rstrip u).map f := by
    intro u
    unfold rstrip
    rw [← List.map_reverse, List.dropWhile_map, hfun, ← List.map_reverse]
  unfold strip
  rw [hl, hr]

lemma strip_title_self {t : PyStr} (h : strip t = t) :
    strip (title t) = title t :=
  strip_eq_self_congr (titleAux_isSpace false t) h

lemma strip_upper_self {t : PyStr} (h : strip t = t) :
    strip (upper t) = upper t := by
  unfold upper
  rw [strip_map isSpaceC_toUpperC, h]


lemma carInit_ok_iff (today : Int) (make model : PyStr) (year : Int) (price : Rat)
    (vin iu : PyStr) (sd : Option PyStr) (c : Car) :
    carInit today make model year price vin iu sd = Except.ok c ↔
      (¬ strip make = [] ∧ ¬ strip model = [] ∧ (strip vin).length = 17 ∧
        1900 ≤ year ∧ year ≤ today + 2 ∧ ¬ price ≤ 0 ∧
        c = { make := title (strip make), model := title (strip model),
              year := year, price := price, vin := upper (strip vin),
              image_url := if strip iu = [] then placeholder else strip iu,
              sale_date := sd }) := by
  unfold carInit
  dsimp only
  set u := (if strip iu = [] then placeholder else strip iu) with hu
  split_ifs with h1 h2 h3 h4
  · simp only [reduceCtorEq, false_iff]
    tauto
  · simp only [reduceCtorEq, false_iff]
    intro h
    rcases h2 with h2 | h2
    · rw [h2] at h
      simp at h
    · tauto
  · simp only [reduceCtorEq, false_iff]
    tauto
  · push_neg at h1 h2
    simp only [Except.ok.injEq]
    constructor
    · intro h
      exact ⟨h1.1, h1.2, h2.2, h3.1, h3.2, h4, h.symm⟩
    · intro h
      exact h.2.2.2.2.2.2.symm
  · simp only [reduceCtorEq, false_iff]
    tauto

lemma carInit_error_iff (today : Int) (make model : PyStr) (year : Int) (price : Rat)
    (vin iu : PyStr) (sd : Option PyStr) :
    (∃ e, carInit today make model year price vin iu sd = Except.error e) ↔
      (strip make = [] ∨ strip model = [] ∨ (strip vin).length ≠ 17 ∨
        ¬ (1900 ≤ year ∧ year ≤ today + 2) ∨ price ≤ 0) := by
  unfold carInit
  dsimp only
  set u := (if strip iu = [] then placeholder else strip iu) with hu
  split_ifs with h1 h2 h3 h4
  · simp only [Except.error.injEq, exists_eq', true_iff]
    tauto
  · simp only [Except.error.injEq, exists_eq', true_iff]
    rcases h2 with h2 | h2
    · refine Or.inr (Or.inr (Or.inl ?_))
      rw [h2]
      simp
    · exact Or.inr (Or.inr (Or.inl h2))
  · simp only [Except.error.injEq, exists_eq', true_iff]
    tauto
  · simp only [reduceCtorEq, exists_false, false_iff]
    push_neg at h1 h2
    tauto
  · simp only [Except.error.injEq, exists_eq', true_iff]
    tauto


/-! ### Helper facts about the manager operations -/

lemma isSub_nil (hay : PyStr) : isSub [] hay = true := by
  induction hay with
  | nil => rfl
  | cons c t ih => simp [isSub, isPre]

lemma normVin_idem (s : PyStr) : normVin (normVin s) = normVin s := by
  unfold normVin
  rw [strip_upper_self (strip_idem s), upper_upper]

lemma find_car_mem_vin {m : DealerManager} {vin : PyStr} {car : Car}
    (h : find_car_by_vin m vin = some car) :
    car ∈ m.inventory ∧ car.vin = normVin vin := by
  unfold find_car_by_vin at h
  refine ⟨List.mem_of_find?_eq_some h, ?_⟩
  have := List.find?_some h
  simpa using this

lemma filter_length_of_mem_nodup {l : List Car} {v : PyStr}
    (hnd : (l.map (fun c => c.vin)).Nodup) (hm : ∃ c ∈ l, c.vin = v) :
    (l.filter (fun c => decide (c.vin ≠ v))).length + 1 = l.length := by
  induction l with
  | nil => simp at hm
  | cons a t ih =>
    simp only [List.map_cons, List.nodup_cons] at hnd
    by_cases ha : a.vin = v
    · have hall : ∀ c ∈ t, c.vin ≠ v := by
        intro c hc hcv
        exact hnd.1 (by rw [ha, ← hcv]; exact List.mem_map_of_mem _ hc)
      have hfa : (decide (a.vin ≠ v)) = false := by simp [ha]
      have hft : t.filter (fun c => decide (c.vin ≠ v)) = t :=
        List.filter_eq_self.mpr (fun c hc => by simpa using hall c hc)
      simp only [List.filter_cons]
      rw [if_neg (by simp [ha]), hft]
      simp
    · obtain ⟨c, hc, hcv⟩ := hm
      rcases List.mem_cons.mp hc with rfl | hct
      · exact absurd hcv ha
      · have hrec := ih hnd.2 ⟨c, hct, hcv⟩
        simp only [List.filter_cons]
        rw [if_pos (by simp [ha])]
        simp only [List.length_cons]
        omega

lemma replaceFirst_map_vin {p : Car → Bool} {f : Car → Car}
    (hf : ∀ c, (f c).vin = c.vin) (l : List Car) :
    (replaceFirst p f l).map (fun c => c.vin) = l.map (fun c => c.vin) := by
  induction l with
  | nil => rfl
  | cons a t ih =>
    by_cases hp : p a = true
    · simp [replaceFirst, hp, hf a]
    · simp [replaceFirst, hp, ih]

lemma WF_of_map_vin_eq {m m' : DealerManager}
    (h : m'.inventory.map (fun c => c.vin) = m.inventory.map (fun c => c.vin))
    (hw : WF m) : WF m' := by
  unfold WF at *
  rw [h]
  exact hw

lemma WF_sublist {m m' : DealerManager}
    (h : m'.inventory.Sublist m.inventory) (hw : WF m) : WF m' := by
  unfold WF at *
  have hs := h.map (fun c => c.vin)
  exact ⟨fun v hv => hw.1 v (hs.subset hv), hs.nodup hw.2⟩

lemma applyImage_vins (v : PyStr) (m : DealerManager) (niu : Option PyStr) :
    ((DA.applyImage v m niu).1).inventory.map (fun c => c.vin) =
      m.inventory.map (fun c => c.vin) := by
  cases niu with
  | none => rfl
  | some u =>
    unfold DA.applyImage
    dsimp only
    apply replaceFirst_map_vin
    intro c
    rfl

lemma editYear_vins (today : Int) (v : PyStr) (m : DealerManager)
    (ny : Option Int) (niu : Option PyStr) :
    ((DA.editYear today v m ny niu).1).inventory.map (fun c => c.vin) =
      m.inventory.map (fun c => c.vin) := by
  cases ny with
  | none => exact applyImage_vins v m niu
  | some y =>
    unfold DA.editYear
    dsimp only
    split_ifs with h
    · rw [applyImage_vins]
      dsimp only
      apply replaceFirst_map_vin
      intro c
      rfl
    · rfl

lemma DA_edit_vins (today : Int) (m : DealerManager) (vin : PyStr)
    (np : Option Rat) (ny : Option Int) (niu : Option PyStr) :
    ((DA.edit_car today m vin np ny niu).1).inventory.map (fun c => c.vin) =
      m.inventory.map (fun c => c.vin) := by
  unfold DA.edit_car
  dsimp only
  cases hf : find_car_by_vin m vin with
  | none => rfl
  | some car =>
    cases np with
    | none => exact editYear_vins today _ m ny niu
    | some p =>
      dsimp only
      split_ifs with h
      · rfl
      · rw [editYear_vins]
        dsimp only
        apply replaceFirst_map_vin
        intro c
        rfl

lemma load_data_vins (today : Int) (recs : List RawRec) :
    ((load_data today recs).map (fun c => c.vin)).Sublist
        (recs.map (fun r => normVin r.vin)) ∧
      ∀ c ∈ load_data today recs, normVin c.vin = c.vin := by
  induction recs with
  | nil => exact ⟨List.nil_sublist _, by simp [load_data]⟩
  | cons r t ih =>
    unfold load_data
    cases h : carInit today r.make r.model r.year r.price r.vin r.image_url Option.none with
    | ok c =>
      have hc := (carInit_ok_iff today r.make r.model r.year r.price r.vin
        r.image_url Option.none c).mp h
      have hvin : c.vin = normVin r.vin := by rw [hc.2.2.2.2.2.2]; rfl
      constructor
      · simpa [hvin] using List.Sublist.cons₂ (normVin r.vin) ih.1
      · intro d hd
        rcases List.mem_cons.mp hd with rfl | hdt
        · rw [hvin, normVin_idem]
        · exact ih.2 d hdt
    | error e => exact ⟨List.Sublist.cons _ ih.1, ih.2⟩


/-! ### Claim theorems -/

/-- C10: if the inventory contains a vehicle with the given normalized VIN
and `edit_car` (dealer_manager.py variant) is called with neither a new
price nor a new year, it raises `ValueError("No changes specified (both
price and year skipped).")` instead of succeeding as a no-op; no state is
produced, so the vehicle is unchanged. -/
theorem spec_C10 (today : Int) (m : DealerManager) (vin : PyStr) (car : Car)
    (hfind : find_car_by_vin m vin = some car) :
    DM.edit_car today m vin Option.none Option.none =
      Except.error ("No changes specified (both price and year skipped).") := by
  unfold DM.edit_car
  rw [hfind]
  simp

theorem spec_C10_witness :
    DM.edit_car 2026 mgrA (pys ("1HGCM82633A004352")) Option.none Option.none =
      Except.error ("No changes specified (both price and year skipped).") :=
  spec_C10 2026 mgrA (pys ("1HGCM82633A004352")) carA (by decide)

/-- C6 (amended): on a VIN matching no inventory entry, `find_car_by_vin`
returns `None` (the hypothesis), `remove_car` returns `False`, and the
dealer_app.py `edit_car` returns `False`, all leaving the state unchanged;
the dealer_manager.py `edit_car`, however, raises
`ValueError(f"Car with VIN {vin} not found.")` rather than returning a
boolean false (and produces no state change either). -/
theorem spec_C6_amended (today : Int) (m : DealerManager) (vin now : PyStr)
    (np : Option Rat) (ny : Option Int) (niu : Option PyStr)
    (h : find_car_by_vin m vin = Option.none) :
    remove_car now m vin = (m, false) ∧
    DA.edit_car today m vin np ny niu = (m, false) ∧
    DM.edit_car today m vin np ny =
      Except.error ("Car with VIN " ++ toStr vin ++ " not found.") := by
  refine ⟨?_, ?_, ?_⟩
  · unfold remove_car
    rw [h]
  · unfold DA.edit_car
    dsimp only
    rw [h]
  · unfold DM.edit_car
    rw [h]

theorem spec_C6_witness :
    remove_car (pys ("2026-01-02 03:04:05")) mgrA (pys ("VINABSENT000000001"))
        = (mgrA, false) ∧
    DA.edit_car 2026 mgrA (pys ("VINABSENT000000001")) Option.none Option.none
        Option.none = (mgrA, false) ∧
    DM.edit_car 2026 mgrA (pys ("VINABSENT000000001")) Option.none Option.none =
      Except.error ("Car with VIN " ++ toStr (pys ("VINABSENT000000001")) ++
        " not found.") :=
  spec_C6_amended 2026 mgrA (pys ("VINABSENT000000001"))
    (pys ("2026-01-02 03:04:05")) Option.none Option.none Option.none (by decide)

/-- C6 (counterexample to the claim as stated): the dealer_manager.py
`edit_car` on an absent VIN raises a `ValueError` — it does not signal the
absence via a boolean false. -/
theorem spec_C6_counterexample :
    DM.edit_car 2026 { inventory := [], sales_history := [] }
        (pys ("NOSUCHVIN00000001")) (some 5) Option.none =
      Except.error ("Car with VIN NOSUCHVIN00000001 not found.") := by decide

/-- C1 (dealer_app.py violates all-or-nothing): editing the stored
25000-priced vehicle with a valid new price 30000 and an invalid year 1800
signals failure (returns `False`) yet leaves the price changed to 30000 —
the provided changes were partially applied.  (The dealer_manager.py
variant validates through the constructor before applying and is
all-or-nothing; the spec itself flags the partial-apply variant as a
defect.) -/
theorem spec_C1_sequential_edit :
    (DA.edit_car 2026 mgrA (pys ("1HGCM82633A004352")) (some 30000) (some 1800)
        Option.none).2 = false ∧
    (DA.edit_car 2026 mgrA (pys ("1HGCM82633A004352")) (some 30000) (some 1800)
        Option.none).1.inventory.map (fun c => c.price) = [30000] ∧
    carA.price = 25000 := by decide

/-- C9 (counterexample to the claim as stated): `to_dict` of an inventory
vehicle (sale_date `None`) still emits a `sale_date` key (with value
`null`), so a saved inventory record does not contain exactly the six
fields make/model/year/price/vin/image_url. -/
theorem spec_C9_counterexample :
    save_records mgrA = [Car.to_dict carA] ∧
    carA.sale_date = Option.none ∧
    (pys ("sale_date")) ∈ (Car.to_dict carA).map Prod.fst ∧
    (Car.to_dict carA).map Prod.fst ≠
      [pys ("make"), pys ("model"), pys ("year"), pys ("price"),
        pys ("vin"), pys ("image_url")] := by decide

/-- C9 (amended): every record written on save is `to_dict` of an
inventory vehicle and contains exactly the seven fields make, model, year,
price, vin, image_url and sale_date, where sale_date is `null` for
inventory vehicles (sale_date `None`) and the date string only on the
sale-record variant. -/
theorem spec_C9_amended (m : DealerManager) (c : Car) (hc : c ∈ m.inventory) :
    Car.to_dict c ∈ save_records m ∧
    (Car.to_dict c).map Prod.fst =
      [pys ("make"), pys ("model"), pys ("year"), pys ("price"),
        pys ("vin"), pys ("image_url"), pys ("sale_date")] ∧
    (c.sale_date = Option.none →
      lookupD (Car.to_dict c) (pys ("sale_date")) = some PyVal.none) ∧
    (∀ d, c.sale_date = some d →
      lookupD (Car.to_dict c) (pys ("sale_date")) = some (PyVal.str d)) := by
  refine ⟨List.mem_map_of_mem _ hc, rfl, ?_, ?_⟩
  · intro h
    simp only [Car.to_dict, h]
    rfl
  · intro d h
    simp only [Car.to_dict, h]
    rfl

theorem spec_C9_witness :
    Car.to_dict carA ∈ save_records mgrA ∧
    (Car.to_dict carA).map Prod.fst =
      [pys ("make"), pys ("model"), pys ("year"), pys ("price"),
        pys ("vin"), pys ("image_url"), pys ("sale_date")] ∧
    (carA.sale_date = Option.none →
      lookupD (Car.to_dict carA) (pys ("sale_date")) = some PyVal.none) ∧
    (∀ d, carA.sale_date = some d →
      lookupD (Car.to_dict carA) (pys ("sale_date")) = some (PyVal.str d)) :=
  spec_C9_amended mgrA carA (by decide)


/-- C2: removing an existing VIN (normalized match) succeeds, shrinks the
inventory by exactly one (the matching vehicle is gone), and in the same
returned state appends exactly one sale record to the sales log — the
vehicle's serialized dict with its `vin` field and a `sale_date` set to
the captured "now" timestamp.  The uniqueness hypothesis is the inventory
invariant maintained by the manager. -/
theorem spec_C2 (m : DealerManager) (vin now : PyStr) (car : Car)
    (hfind : find_car_by_vin m vin = some car)
    (hnd : (m.inventory.map (fun c => c.vin)).Nodup) :
    (remove_car now m vin).2 = true ∧
    (remove_car now m vin).1.inventory.length + 1 = m.inventory.length ∧
    find_car_by_vin (remove_car now m vin).1 vin = Option.none ∧
    (remove_car now m vin).1.sales_history =
      m.sales_history ++
        [setKey (Car.to_dict car) (pys ("sale_date")) (PyVal.str now)] ∧
    (remove_car now m vin).1.sales_history.length =
      m.sales_history.length + 1 ∧
    lookupD (setKey (Car.to_dict car) (pys ("sale_date")) (PyVal.str now))
        (pys ("vin")) = some (PyVal.str car.vin) ∧
    lookupD (setKey (Car.to_dict car) (pys ("sale_date")) (PyVal.str now))
        (pys ("sale_date")) = some (PyVal.str now) := by
  obtain ⟨hmem, hvin⟩ := find_car_mem_vin hfind
  have hrm : remove_car now m vin =
      ({ inventory := m.inventory.filter (fun c => decide (c.vin ≠ normVin vin)),
         sales_history := m.sales_history ++
           [setKey (Car.to_dict car) (pys ("sale_date")) (PyVal.str now)] },
        true) := by
    unfold remove_car
    rw [hfind]
  refine ⟨by rw [hrm], ?_, ?_, by rw [hrm], by rw [hrm]; simp, rfl, rfl⟩
  · rw [hrm]
    exact filter_length_of_mem_nodup hnd ⟨car, hmem, hvin⟩
  · rw [hrm]
    unfold find_car_by_vin
    dsimp only
    apply List.find?_eq_none.mpr
    intro x hx
    have hxf := (List.mem_filter.mp hx).2
    simp only [decide_eq_true_eq] at hxf ⊢
    exact hxf

theorem spec_C2_witness :
    (remove_car (pys ("2026-01-02 03:04:05")) mgrA
        (pys (" 1hgcm82633a004352 "))).2 = true ∧
    (remove_car (pys ("2026-01-02 03:04:05")) mgrA
        (pys (" 1hgcm82633a004352 "))).1.inventory.length + 1 =
      mgrA.inventory.length ∧
    find_car_by_vin (remove_car (pys ("2026-01-02 03:04:05")) mgrA
        (pys (" 1hgcm82633a004352 "))).1 (pys (" 1hgcm82633a004352 ")) =
      Option.none ∧
    (remove_car (pys ("2026-01-02 03:04:05")) mgrA
        (pys (" 1hgcm82633a004352 "))).1.sales_history =
      mgrA.sales_history ++
        [setKey (Car.to_dict carA) (pys ("sale_date"))
          (PyVal.str (pys ("2026-01-02 03:04:05")))] ∧
    (remove_car (pys ("2026-01-02 03:04:05")) mgrA
        (pys (" 1hgcm82633a004352 "))).1.sales_history.length =
      mgrA.sales_history.length + 1 ∧
    lookupD (setKey (Car.to_dict carA) (pys ("sale_date"))
        (PyVal.str (pys ("2026-01-02 03:04:05")))) (pys ("vin")) =
      some (PyVal.str carA.vin) ∧
    lookupD (setKey (Car.to_dict carA) (pys ("sale_date"))
        (PyVal.str (pys ("2026-01-02 03:04:05")))) (pys ("sale_date")) =
      some (PyVal.str (pys ("2026-01-02 03:04:05"))) :=
  spec_C2 mgrA (pys (" 1hgcm82633a004352 ")) (pys ("2026-01-02 03:04:05"))
    carA (by decide) (by decide)

/-- C7: the sales report is computed from the current sales log on each
call — `total_sold` is the log length, `total_revenue` the sum of the
records' price fields, `history` the log reversed (most recent sale
first); and a sale recorded by `remove_car` between two calls shows up in
the second call's report: one more sold, revenue grown by the sold car's
price, and the new record at the head of the history. -/
theorem spec_C7 (m m' : DealerManager) (vin now : PyStr) (car : Car)
    (hfind : find_car_by_vin m vin = some car)
    (hrm : remove_car now m vin = (m', true)) :
    (get_sales_report m).total_sold = m.sales_history.length ∧
    (get_sales_report m).total_revenue = (m.sales_history.map priceOf).sum ∧
    (get_sales_report m).history = m.sales_history.reverse ∧
    (get_sales_report m').total_sold = (get_sales_report m).total_sold + 1 ∧
    (get_sales_report m').total_revenue =
      (get_sales_report m).total_revenue + car.price ∧
    (get_sales_report m').history =
      setKey (Car.to_dict car) (pys ("sale_date")) (PyVal.str now) ::
        (get_sales_report m).history := by
  unfold remove_car at hrm
  rw [hfind] at hrm
  have hm' : m' =
      { inventory := m.inventory.filter (fun c => decide (c.vin ≠ normVin vin)),
        sales_history := m.sales_history ++
          [setKey (Car.to_dict car) (pys ("sale_date")) (PyVal.str now)] } := by
    have := congrArg Prod.fst hrm
    exact this.symm
  have hpr : priceOf (setKey (Car.to_dict car) (pys ("sale_date"))
      (PyVal.str now)) = car.price := rfl
  refine ⟨rfl, rfl, rfl, ?_, ?_, ?_⟩
  · rw [hm']
    unfold get_sales_report
    simp
  · rw [hm']
    unfold get_sales_report
    dsimp only
    rw [List.map_append, List.sum_append]
    simp [hpr]
  · rw [hm']
    unfold get_sales_report
    dsimp only
    rw [List.reverse_append]
    rfl

theorem spec_C7_witness :
    (get_sales_report mgrA).total_sold = mgrA.sales_history.length ∧
    (get_sales_report mgrA).total_revenue =
      (mgrA.sales_history.map priceOf).sum ∧
    (get_sales_report mgrA).history = mgrA.sales_history.reverse ∧
    (get_sales_report (remove_car (pys ("2026-01-02 03:04:05")) mgrA
        (pys ("1HGCM82633A004352"))).1).total_sold =
      (get_sales_report mgrA).total_sold + 1 ∧
    (get_sales_report (remove_car (pys ("2026-01-02 03:04:05")) mgrA
        (pys ("1HGCM82633A004352"))).1).total_revenue =
      (get_sales_report mgrA).total_revenue + carA.price ∧
    (get_sales_report (remove_car (pys ("2026-01-02 03:04:05")) mgrA
        (pys ("1HGCM82633A004352"))).1).history =
      setKey (Car.to_dict carA) (pys ("sale_date"))
          (PyVal.str (pys ("2026-01-02 03:04:05"))) ::
        (get_sales_report mgrA).history :=
  spec_C7 mgrA (remove_car (pys ("2026-01-02 03:04:05")) mgrA
      (pys ("1HGCM82633A004352"))).1
    (pys ("1HGCM82633A004352")) (pys ("2026-01-02 03:04:05")) carA
    (by decide) (by decide)


/-- C8: in both variants, an empty or whitespace-only query returns the
entire inventory (dealer_app.py by its explicit blank-query branch;
dealer_manager.py because the empty string is a substring of everything);
a non-blank query returns exactly the vehicles whose make or model
contains the trimmed query as a case-insensitive substring
(`matchesQuery`); and a query matching nothing yields `[]` — the result is
always a list, never null. -/
theorem spec_C8 (m : DealerManager) (q : PyStr) :
    (strip q = [] →
      DA.search_cars m q = m.inventory ∧ DM.search_cars m q = m.inventory) ∧
    (strip q ≠ [] →
      DA.search_cars m q = m.inventory.filter (matchesQuery q) ∧
      DM.search_cars m q = m.inventory.filter (matchesQuery q) ∧
      ∀ c : Car, c ∈ DA.search_cars m q ↔
        c ∈ m.inventory ∧ matchesQuery q c = true) ∧
    ((∀ c ∈ m.inventory, matchesQuery q c = false) → strip q ≠ [] →
      DA.search_cars m q = [] ∧ DM.search_cars m q = []) := by
  have hql : strip (lower q) = lower (strip q) := strip_map isSpaceC_toLowerC q
  have hblank : strip q = [] ↔ strip (lower q) = [] := by
    rw [hql]
    unfold lower
    constructor
    · intro h
      rw [h]
      rfl
    · intro h
      exact List.map_eq_nil_iff.mp h
  have hDM : DM.search_cars m q = m.inventory.filter (matchesQuery q) := rfl
  constructor
  · intro h0
    have h1 : strip (lower q) = [] := hblank.mp h0
    constructor
    · unfold DA.search_cars
      rw [h1]
      rfl
    · rw [hDM]
      apply List.filter_eq_self.mpr
      intro c _
      unfold matchesQuery
      rw [h1]
      simp [isSub_nil]
  · constructor
    · intro h0
      have h1 : strip (lower q) ≠ [] := fun hh => h0 (hblank.mpr hh)
      have hDA : DA.search_cars m q = m.inventory.filter (matchesQuery q) := by
        unfold DA.search_cars
        rw [if_neg h1]
        rfl
      refine ⟨hDA, hDM, ?_⟩
      intro c
      rw [hDA]
      constructor
      · intro hc
        have := List.mem_filter.mp hc
        exact ⟨this.1, this.2⟩
      · intro hc
        exact List.mem_filter.mpr ⟨hc.1, hc.2⟩
    · intro hnone h0
      have h1 : strip (lower q) ≠ [] := fun hh => h0 (hblank.mpr hh)
      have hDA : DA.search_cars m q = m.inventory.filter (matchesQuery q) := by
        unfold DA.search_cars
        rw [if_neg h1]
        rfl
      constructor
      · rw [hDA]
        apply List.filter_eq_nil_iff.mpr
        intro c hc
        simp [hnone c hc]
      · rw [hDM]
        apply List.filter_eq_nil_iff.mpr
        intro c hc
        simp [hnone c hc]

theorem spec_C8_witness :
    (DA.search_cars mgrA (pys ("   ")) = mgrA.inventory ∧
      DM.search_cars mgrA (pys ("   ")) = mgrA.inventory) ∧
    (DA.search_cars mgrA (pys (" CIV ")) =
        mgrA.inventory.filter (matchesQuery (pys (" CIV "))) ∧
      DM.search_cars mgrA (pys (" CIV ")) =
        mgrA.inventory.filter (matchesQuery (pys (" CIV ")))) ∧
    (DA.search_cars mgrA (pys ("tesla")) = [] ∧
      DM.search_cars mgrA (pys ("tesla")) = []) :=
  ⟨(spec_C8 mgrA (pys ("   "))).1 (by decide),
    ⟨((spec_C8 mgrA (pys (" CIV "))).2.1 (by decide)).1,
      ((spec_C8 mgrA (pys (" CIV "))).2.1 (by decide)).2.1⟩,
    (spec_C8 mgrA (pys ("tesla"))).2.2 (by decide) (by decide)⟩

/-- C5: construction fails with a validation error exactly when make or
model is empty after trimming, or the trimmed VIN is not exactly 17
characters, or the year lies outside [1900, today+2], or the price is not
positive (the dynamic "not an integer"/"not numeric" cases cannot arise in
this typed model); an error carries no record at all, and on success the
stored fields are precisely the normalized values: make/model trimmed and
title-cased, vin trimmed and upper-cased, blank image_url replaced by the
placeholder path. -/
theorem spec_C5 (today : Int) (make model : PyStr) (year : Int) (price : Rat)
    (vin iu : PyStr) (sd : Option PyStr) :
    ((∃ e, carInit today make model year price vin iu sd = Except.error e) ↔
      (strip make = [] ∨ strip model = [] ∨ (strip vin).length ≠ 17 ∨
        ¬ (1900 ≤ year ∧ year ≤ today + 2) ∨ price ≤ 0)) ∧
    ∀ c, carInit today make model year price vin iu sd = Except.ok c →
      c.make = title (strip make) ∧ c.model = title (strip model) ∧
      c.year = year ∧ c.price = price ∧ c.vin = upper (strip vin) ∧
      c.image_url = (if strip iu = [] then placeholder else strip iu) ∧
      c.sale_date = sd := by
  refine ⟨carInit_error_iff today make model year price vin iu sd, ?_⟩
  intro c h
  have hc := (carInit_ok_iff today make model year price vin iu sd c).mp h
  rw [hc.2.2.2.2.2.2]
  exact ⟨rfl, rfl, rfl, rfl, rfl, rfl, rfl⟩

theorem spec_C5_witness :
    ((∃ e, carInit 2026 (pys ("")) (pys ("Civic")) 2020 25000
        (pys ("1HGCM82633A004352")) (pys ("")) Option.none =
          Except.error e) ↔
      (strip (pys ("")) = [] ∨ strip (pys ("Civic")) = [] ∨
        (strip (pys ("1HGCM82633A004352"))).length ≠ 17 ∨
        ¬ (1900 ≤ (2020 : Int) ∧ (2020 : Int) ≤ 2026 + 2) ∨
        (25000 : Rat) ≤ 0)) ∧
    (carA.make = title (strip (pys ("  honda "))) ∧
      carA.model = title (strip (pys ("civic"))) ∧
      carA.year = 2020 ∧ carA.price = 25000 ∧
      carA.vin = upper (strip (pys (" 1hgcm82633a004352 "))) ∧
      carA.image_url =
        (if strip (pys ("")) = [] then placeholder else strip (pys (""))) ∧
      carA.sale_date = Option.none) :=
  ⟨(spec_C5 2026 (pys ("")) (pys ("Civic")) 2020 25000
      (pys ("1HGCM82633A004352")) (pys ("")) Option.none).1,
    (spec_C5 2026 (pys ("  honda ")) (pys ("civic")) 2020 25000
      (pys (" 1hgcm82633a004352 ")) (pys ("")) Option.none).2 carA (by decide)⟩


/-- C4: for any input on which construction succeeds, serializing the car
(`to_dict`, whose entries are exactly the car's fields) and constructing
again from those fields succeeds and returns a field-for-field identical
car — the normalization (trim/title-case/upper-case, placeholder default)
is idempotent on already-normalized values. -/
theorem spec_C4 (today : Int) (mk md : PyStr) (yr : Int) (pr : Rat)
    (vn iu : PyStr) (c : Car)
    (h : carInit today mk md yr pr vn iu Option.none = Except.ok c) :
    Car.to_dict c =
      [ (pys ("make"), PyVal.str c.make), (pys ("model"), PyVal.str c.model),
        (pys ("year"), PyVal.int c.year), (pys ("price"), PyVal.float c.price),
        (pys ("vin"), PyVal.str c.vin),
        (pys ("image_url"), PyVal.str c.image_url),
        (pys ("sale_date"), PyVal.none) ] ∧
    carInit today c.make c.model c.year c.price c.vin c.image_url Option.none =
      Except.ok c := by
  obtain ⟨hmk, hmd, hvl, hy1, hy2, hp, hceq⟩ :=
    (carInit_ok_iff today mk md yr pr vn iu Option.none c).mp h
  subst hceq
  constructor
  · rfl
  · apply (carInit_ok_iff today _ _ yr pr _ _ Option.none _).mpr
    have hsm : strip (title (strip mk)) = title (strip mk) :=
      strip_title_self (strip_idem mk)
    have hsb : strip (title (strip md)) = title (strip md) :=
      strip_title_self (strip_idem md)
    have hsv : strip (upper (strip vn)) = upper (strip vn) :=
      strip_upper_self (strip_idem vn)
    have hmne : ¬ strip (title (strip mk)) = [] := by
      rw [hsm]
      intro h0
      apply hmk
      have hlen := congrArg List.length h0
      rw [title_length] at hlen
      exact List.length_eq_zero.mp hlen
    have hmne2 : ¬ strip (title (strip md)) = [] := by
      rw [hsb]
      intro h0
      apply hmd
      have hlen := congrArg List.length h0
      rw [title_length] at hlen
      exact List.length_eq_zero.mp hlen
    have hvlen : (strip (upper (strip vn))).length = 17 := by
      rw [hsv]
      unfold upper
      rw [List.length_map]
      exact hvl
    dsimp only
    refine ⟨hmne, hmne2, hvlen, hy1, hy2, hp, ?_⟩
    simp only [Car.mk.injEq]
    refine ⟨?_, ?_, trivial, trivial, ?_, ?_, trivial⟩
    · rw [hsm, title_title]
    · rw [hsb, title_title]
    · rw [hsv, upper_upper]
    · by_cases hiu : strip iu = []
      · have h1 : strip placeholder = placeholder := by decide
        have h2 : ¬ placeholder = ([] : PyStr) := by decide
        rw [if_pos hiu, h1, if_neg h2]
      · rw [if_neg hiu, strip_idem, if_neg hiu]

theorem spec_C4_witness :
    Car.to_dict carA =
      [ (pys ("make"), PyVal.str carA.make),
        (pys ("model"), PyVal.str carA.model),
        (pys ("year"), PyVal.int carA.year),
        (pys ("price"), PyVal.float carA.price),
        (pys ("vin"), PyVal.str carA.vin),
        (pys ("image_url"), PyVal.str carA.image_url),
        (pys ("sale_date"), PyVal.none) ] ∧
    carInit 2026 carA.make carA.model carA.year carA.price carA.vin
        carA.image_url Option.none = Except.ok carA :=
  spec_C4 2026 (pys ("  honda ")) (pys ("civic")) 2020 25000
    (pys (" 1hgcm82633a004352 ")) (pys ("")) carA (by decide)


/-- C3 (counterexample to the claim as stated): loading a stored file that
contains two valid records with the same VIN produces an inventory with
two entries sharing a normalized VIN — `_load_data` performs no
duplicate-VIN check, so load does not preserve the invariant. -/
theorem spec_C3_counterexample :
    ¬ noDupNormVins
        { inventory := load_data 2026 [rawA, rawA], sales_history := [] } := by
  unfold noDupNormVins
  decide

/-- C3 (amended): on a well-formed state (stored VINs normalized and
pairwise distinct — `WF`, which implies the spec's no-duplicate-normalized-
VIN invariant, last conjunct), `add_car`, both `edit_car` variants and
`remove_car` preserve well-formedness; a second add of an already-present
normalized VIN returns `False` and leaves the whole manager unchanged; and
`load_data` establishes the invariant only when the stored records'
normalized VINs are themselves pairwise distinct (it never deduplicates). -/
theorem spec_C3_amended (today : Int) (m : DealerManager) (hWF : WF m) :
    (∀ car : Car, normVin car.vin = car.vin → WF (add_car m car).1) ∧
    (∀ car : Car, (∃ c ∈ m.inventory, normVin c.vin = normVin car.vin) →
      add_car m car = (m, false)) ∧
    (∀ vin np ny m' b, DM.edit_car today m vin np ny = Except.ok (m', b) →
      WF m') ∧
    (∀ vin np ny niu, WF (DA.edit_car today m vin np ny niu).1) ∧
    (∀ now vin, WF (remove_car now m vin).1) ∧
    (∀ recs : List RawRec, (recs.map (fun r => normVin r.vin)).Nodup →
      WF { inventory := load_data today recs, sales_history := [] }) ∧
    noDupNormVins m := by
  refine ⟨?_, ?_, ?_, ?_, ?_, ?_, ?_⟩
  · intro car hnc
    by_cases hf : (find_car_by_vin m car.vin).isSome = true
    · unfold add_car
      rw [if_pos hf]
      exact hWF
    · unfold add_car
      rw [if_neg hf]
      have hnone : find_car_by_vin m car.vin = Option.none :=
        Option.not_isSome_iff_eq_none.mp hf
      unfold find_car_by_vin at hnone
      have hall := List.find?_eq_none.mp hnone
      unfold WF at hWF ⊢
      dsimp only
      rw [List.map_append]
      constructor
      · intro v hv
        rcases List.mem_append.mp hv with hv | hv
        · exact hWF.1 v hv
        · simp only [List.map_cons, List.map_nil, List.mem_singleton] at hv
          rw [hv]
          exact hnc
      · rw [List.nodup_append]
        refine ⟨hWF.2, List.nodup_singleton _, ?_⟩
        intro a ha hb
        simp only [List.map_cons, List.map_nil, List.mem_singleton] at hb
        obtain ⟨d, hd, hdv⟩ := List.mem_map.mp ha
        have := hall d hd
        rw [decide_eq_true_eq] at this
        apply this
        rw [hdv, hb, hnc]
  · intro car hex
    obtain ⟨d, hd, hdv⟩ := hex
    have hdn : normVin d.vin = d.vin :=
      hWF.1 d.vin (List.mem_map_of_mem _ hd)
    have hfound : (find_car_by_vin m car.vin).isSome = true := by
      unfold find_car_by_vin
      apply List.find?_isSome.mpr
      exact ⟨d, hd, by rw [decide_eq_true_eq, ← hdn, hdv]⟩
    unfold add_car
    rw [if_pos hfound]
  · intro vin np ny m' b hed
    unfold DM.edit_car at hed
    cases hfind : find_car_by_vin m vin with
    | none =>
      rw [hfind] at hed
      simp at hed
    | some car =>
      rw [hfind] at hed
      dsimp only at hed
      by_cases hno : np = Option.none ∧ ny = Option.none
      · rw [if_pos hno] at hed
        simp at hed
      · rw [if_neg hno] at hed
        cases hci : carInit today car.make car.model (ny.getD car.year)
            (np.getD car.price) car.vin car.image_url Option.none with
        | error e =>
          rw [hci] at hed
          simp at hed
        | ok c0 =>
          rw [hci] at hed
          simp only [Except.ok.injEq, Prod.mk.injEq] at hed
          apply WF_of_map_vin_eq _ hWF
          rw [← hed.1]
          dsimp only
          apply replaceFirst_map_vin
          intro c
          cases np <;> cases ny <;> rfl
  · intro vin np ny niu
    exact WF_of_map_vin_eq (DA_edit_vins today m vin np ny niu) hWF
  · intro now vin
    unfold remove_car
    cases hfind : find_car_by_vin m vin with
    | none => exact hWF
    | some car =>
      dsimp only
      apply WF_sublist _ hWF
      exact List.filter_sublist _
  · intro recs hnd
    obtain ⟨hsub, hnorm⟩ := load_data_vins today recs
    unfold WF
    dsimp only
    constructor
    · intro v hv
      obtain ⟨d, hd, hdv⟩ := List.mem_map.mp hv
      rw [← hdv]
      exact hnorm d hd
    · exact hsub.nodup hnd
  · unfold noDupNormVins
    have heq : ((m.inventory.map (fun c => c.vin)).map normVin) =
        m.inventory.map (fun c => c.vin) := by
      conv_rhs => rw [← List.map_id (m.inventory.map (fun c => c.vin))]
      exact List.map_congr_left (fun v hv => hWF.1 v hv)
    rw [heq]
    exact hWF.2

theorem spec_C3_witness :
    add_car mgrA carA = (mgrA, false) ∧ noDupNormVins mgrA :=
  ⟨(spec_C3_amended 2026 mgrA (by unfold WF; decide)).2.1 carA
      ⟨carA, by decide, by decide⟩,
    (spec_C3_amended 2026 mgrA (by unfold WF; decide)).2.2.2.2.2.2⟩

end CarDealerApp
